import Mathlib

set_option autoImplicit false
set_option linter.unusedVariables false

/-! Verification development for the transGemma video-dubbing pipeline
(`src/video_dubber.py`, `src/translator.py`, `src/languages.py`).

The embedding works over `List Char` for strings and `ℚ` for the floating
point durations of the source.  External media tooling (ffprobe / ffmpeg /
edge-tts) is modelled through an explicit file-system view `Fs` mapping a
path to the probed duration of the file stored there (`none` for a missing
or unreadable file), plus an `onDisk` predicate for `os.path.exists`.  The
observable effect of each ffmpeg invocation on that view is spelled out next
to the corresponding definition. -/

namespace TransGemma

/-- Characters of a string literal; the embedding works over `List Char`. -/
def str (s : String) : List Char := s.data

/-! ## Basic string machinery shared by the embedded functions -/

/-- Python `int()` on a real value: truncation toward zero. -/
def pyInt (q : ℚ) : ℤ := if q < 0 then -⌊-q⌋ else ⌊q⌋

/-- Python `%` on floats: the remainder has the sign of the divisor, so for a
positive modulus the result is `a - b * ⌊a / b⌋ ∈ [0, b)`. -/
def pyMod (a b : ℚ) : ℚ := a - b * ⌊a / b⌋

/-- Split a character list at every occurrence of `sep` (Python
`s.split(sep)` semantics: always at least one chunk, empty chunks kept). -/
def splitSep (sep : Char) : List Char → List (List Char)
  | [] => [[]]
  | c :: cs =>
      if c = sep then [] :: splitSep sep cs
      else
        match splitSep sep cs with
        | [] => [[c]]
        | l :: ls => (c :: l) :: ls

/-- Whitespace as recognised by Python `str.strip()` (the characters that can
actually occur in the embedded texts). -/
def pySpace (c : Char) : Bool := c = ' ' ∨ c = '\n' ∨ c = '\t' ∨ c = '\r'

/-- Python `str.strip()`: drop leading and trailing whitespace. -/
def pyStrip (l : List Char) : List Char :=
  ((l.dropWhile pySpace).reverse.dropWhile pySpace).reverse

/-- Python `needle in haystack` on strings: substring scan. -/
def containsSub (pat : List Char) : List Char → Bool
  | [] => pat.isPrefixOf ([] : List Char)
  | c :: cs => pat.isPrefixOf (c :: cs) || containsSub pat cs

/-- Fuel-driven worker for Python `s.replace(pat, repl)` (all non-overlapping
occurrences, left to right).  The fuel is the length of the scanned list, so
`replaceAll` below always supplies enough. -/
def replaceAllAux (pat repl : List Char) : ℕ → List Char → List Char
  | 0, s => s
  | _ + 1, [] => []
  | fuel + 1, c :: cs =>
      if pat.isPrefixOf (c :: cs) ∧ pat ≠ [] then
        repl ++ replaceAllAux pat repl fuel ((c :: cs).drop pat.length)
      else
        c :: replaceAllAux pat repl fuel cs

/-- Python `s.replace(pat, repl)`. -/
def replaceAll (pat repl s : List Char) : List Char :=
  replaceAllAux pat repl s.length s

/-! ## Decimal formatting and parsing -/

/-- Decimal digit characters. -/
def digitChar : ℕ → Char
  | 0 => '0' | 1 => '1' | 2 => '2' | 3 => '3' | 4 => '4'
  | 5 => '5' | 6 => '6' | 7 => '7' | 8 => '8' | _ => '9'

/-- Numeric value of a decimal digit character (0 for anything else). -/
def charVal (c : Char) : ℕ :=
  if c = '1' then 1 else if c = '2' then 2 else if c = '3' then 3
  else if c = '4' then 4 else if c = '5' then 5 else if c = '6' then 6
  else if c = '7' then 7 else if c = '8' then 8 else if c = '9' then 9 else 0

/-- Fuel-driven decimal rendering of a natural number (most significant digit
first); `natToDec` supplies enough fuel for full evaluation by `decide`. -/
def natToDecAux : ℕ → ℕ → List Char
  | 0, _ => []
  | fuel + 1, n =>
      if n < 10 then [digitChar n]
      else natToDecAux fuel (n / 10) ++ [digitChar (n % 10)]

/-- Decimal rendering of a natural number, as produced by Python `str`. -/
def natToDec (n : ℕ) : List Char := natToDecAux (n + 1) n

/-- Decimal rendering of an integer, as produced by Python `str`. -/
def intToDec (n : ℤ) : List Char :=
  if n < 0 then '-' :: natToDec n.natAbs else natToDec n.toNat

/-- Parse a decimal digit string (leading zeros allowed, no validation:
only used to state the subtitle round trip). -/
def decToNat (l : List Char) : ℕ := l.foldl (fun a c => 10 * a + charVal c) 0

/-- Zero padding on the left up to width `k`, as done by Python format
specifications such as `{:02d}` (braces elided): `02d`, `03d`, `04d`. -/
def pad (k : ℕ) (l : List Char) : List Char :=
  List.replicate (k - l.length) '0' ++ l

/-! ## The observable media file system -/

/-- The media file system as observed by the pipeline: `dur p` is the
duration probed by ffprobe for the file at path `p` (`none` models a missing
file or probe output that does not parse as a float) and `onDisk p` models
`os.path.exists(p)`. -/
structure Fs where
  dur : List Char → Option ℚ
  onDisk : List Char → Bool

/-- `VideoDubber.get_audio_duration`: run ffprobe and parse its output as a
float; the bare `except:` turns every failure (missing file, unreadable
stream, unparsable output) into `0.0`, so the function is total. -/
def get_audio_duration (fs : Fs) (audio_path : List Char) : ℚ :=
  (fs.dur audio_path).getD 0

/-- Observable effect of `ffmpeg -y -i inp -filter:a atempo=f outp`: the
written clip's duration is the input duration divided by the tempo factor;
when the input is unreadable, ffmpeg fails and leaves no readable output. -/
def runAtempo (fs : Fs) (inp outp : List Char) (f : ℚ) : Fs where
  dur := fun p => if p = outp then (fs.dur inp).map (· / f) else fs.dur p
  onDisk := fun p => if p = outp then true else fs.onDisk p

/-- Observable effect of `ffmpeg -y -i inp -t t outp`: the written clip is
the input cut down to at most `t` seconds. -/
def runTruncate (fs : Fs) (inp outp : List Char) (t : ℚ) : Fs where
  dur := fun p => if p = outp then (fs.dur inp).map (fun d => min d t) else fs.dur p
  onDisk := fun p => if p = outp then true else fs.onDisk p

/-! ## Temporal aligner (`VideoDubber.adjust_audio_speed`) -/

/-- Result of one aligner run: the updated file-system view, the returned
clip path, the tempo factor actually handed to ffmpeg (`none` when no
`atempo` transform was run) and whether the out-of-band warning was
printed. -/
structure AlignOut where
  fs : Fs
  path : List Char
  factorApplied : Option ℚ
  warned : Bool

/-- `VideoDubber.adjust_audio_speed`: probe the clip; pass it through when
the probe yields a non-positive duration; compute `speed_factor = duration /
target`, clamp it to `[0.85, 1.25]`; skip the transform when the clamped
factor is within `0.05` of `1`; otherwise time-stretch (printing a warning
when the unclamped factor was outside the band) and, if the stretched clip
still exceeds the target by more than 5 percent, hard-truncate it. -/
def adjust_audio_speed (fs : Fs) (audio_path : List Char) (target_duration : ℚ) : AlignOut :=
  let current_duration := get_audio_duration fs audio_path
  if current_duration ≤ 0 then
    { fs := fs, path := audio_path, factorApplied := none, warned := false }
  else
    let original_speed := current_duration / target_duration
    let speed_factor := max 0.85 (min 1.25 original_speed)
    if |speed_factor - 1| < 0.05 then
      { fs := fs, path := audio_path, factorApplied := none, warned := false }
    else
      let output_path := replaceAll (str ".mp3") (str "_adjusted.mp3") audio_path
      let warned := decide (original_speed < 0.85 ∨ 1.25 < original_speed)
      let fs1 := runAtempo fs audio_path output_path speed_factor
      let adjusted_duration := get_audio_duration fs1 output_path
      if adjusted_duration > target_duration * 1.05 then
        let truncated_path := replaceAll (str ".mp3") (str "_truncated.mp3") output_path
        { fs := runTruncate fs1 output_path truncated_path target_duration,
          path := truncated_path, factorApplied := some speed_factor, warned := warned }
      else
        { fs := fs1, path := output_path, factorApplied := some speed_factor, warned := warned }

/-! ## Segment data model (`dataclass Segment` in video_dubber.py) -/

/-- One subtitle segment: start and end offsets in seconds, the transcribed
text, the translated text (empty until translation runs) and the path of the
synthesized clip (empty until synthesis runs). -/
structure Segment where
  start : ℚ
  «end» : ℚ
  text : List Char
  translated_text : List Char := []
  audio_path : List Char := []
  deriving DecidableEq, Repr

/-! ## Track mixer (`VideoDubber.merge_dubbed_audio`) -/

/-- Result of building the mixing command: the file-system view after the
per-segment speed adjustments, the list of `-i` input paths, the adelay
filter parts as (referenced input stream index, delay in milliseconds) pairs
— the part for stream `i` also labels its output `a` followed by `i` — and
the returned output path (empty when no segment had a usable clip). -/
structure MergeOut where
  fs : Fs
  inputs : List (List Char)
  filter_parts : List (ℕ × ℤ)
  output_path : List Char

/-- Loop body of `VideoDubber.merge_dubbed_audio`: a segment whose
`audio_path` is empty or not on disk is skipped; otherwise its clip is speed
adjusted to the segment's time budget, the adjusted path is appended to the
ffmpeg inputs, and an adelay filter part is appended carrying the enumerate
index `i` of the segment (not the position among the usable clips) and the
delay `int(seg.start * 1000)`. -/
def mergeStep (acc : Fs × List (List Char) × List (ℕ × ℤ)) (iseg : ℕ × Segment) :
    Fs × List (List Char) × List (ℕ × ℤ) :=
  let fs := acc.1
  let inputs := acc.2.1
  let filter_parts := acc.2.2
  let i := iseg.1
  let seg := iseg.2
  if seg.audio_path = [] ∨ fs.onDisk seg.audio_path = false then acc
  else
    let target_duration := seg.«end» - seg.start
    let adj := adjust_audio_speed fs seg.audio_path target_duration
    let delay_ms := pyInt (seg.start * 1000)
    (adj.fs, inputs ++ [adj.path], filter_parts ++ [(i, delay_ms)])

/-- `VideoDubber.merge_dubbed_audio`: fold the loop body over the enumerated
segments; when no filter part was produced the function returns the empty
string, otherwise the path of the composite track inside `output_dir`.  The
final amix invocation consumes the labels `a0 ... a(k-1)` for `k` filter
parts and caps the output at `total_duration`; its graph well-formedness is
captured by `filterGraphValid` below. -/
def merge_dubbed_audio (fs : Fs) (segments : List Segment) (total_duration : ℚ)
    (output_dir : List Char) : MergeOut :=
  let st := segments.enum.foldl mergeStep (fs, [], [])
  if st.2.2 = [] then { fs := st.1, inputs := st.2.1, filter_parts := [], output_path := [] }
  else { fs := st.1, inputs := st.2.1, filter_parts := st.2.2,
         output_path := output_dir ++ str "/dubbed_audio.wav" }

/-- The ffmpeg filter graph built by `merge_dubbed_audio` is well formed iff
every stream reference `[i:a]` made by an adelay part names an actual `-i`
input, and the labels defined by the adelay parts are exactly the labels
`a0 ... a(k-1)` that the final amix consumes. -/
def filterGraphValid (m : MergeOut) : Prop :=
  (∀ pr ∈ m.filter_parts, pr.1 < m.inputs.length) ∧
  m.filter_parts.map Prod.fst = List.range m.filter_parts.length

/-! ## Translator (`translator.py` and `languages.py`) -/

/-- The language table of languages.py, keyed by language code, giving
(Chinese name, English name, locale tag). -/
def LANGUAGES (code : String) : Option (String × String × String) :=
  match code with
  | "zh_TW" => some ("繁體中文", "Traditional Chinese", "zh-TW")
  | "zh_CN" => some ("簡體中文", "Simplified Chinese", "zh-CN")
  | "ja_JP" => some ("日文", "Japanese", "ja-JP")
  | "ko_KR" => some ("韓文", "Korean", "ko-KR")
  | "en_US" => some ("英文", "English", "en-US")
  | "de_DE" => some ("德文", "German", "de-DE")
  | "fr_FR" => some ("法文", "French", "fr-FR")
  | "es_ES" => some ("西班牙文", "Spanish", "es-ES")
  | "it_IT" => some ("義大利文", "Italian", "it-IT")
  | "pt_BR" => some ("葡萄牙文(巴西)", "Portuguese", "pt-BR")
  | "pt_PT" => some ("葡萄牙文(葡萄牙)", "Portuguese", "pt-PT")
  | "nl_NL" => some ("荷蘭文", "Dutch", "nl-NL")
  | "pl_PL" => some ("波蘭文", "Polish", "pl-PL")
  | "ru_RU" => some ("俄文", "Russian", "ru-RU")
  | "uk_UA" => some ("烏克蘭文", "Ukrainian", "uk-UA")
  | "cs_CZ" => some ("捷克文", "Czech", "cs-CZ")
  | "sv_SE" => some ("瑞典文", "Swedish", "sv-SE")
  | "da_DK" => some ("丹麥文", "Danish", "da-DK")
  | "fi_FI" => some ("芬蘭文", "Finnish", "fi-FI")
  | "no_NO" => some ("挪威文", "Norwegian", "no-NO")
  | "el_GR" => some ("希臘文", "Greek", "el-GR")
  | "hu_HU" => some ("匈牙利文", "Hungarian", "hu-HU")
  | "ro_RO" => some ("羅馬尼亞文", "Romanian", "ro-RO")
  | "sk_SK" => some ("斯洛伐克文", "Slovak", "sk-SK")
  | "sl_SI" => some ("斯洛維尼亞文", "Slovenian", "sl-SI")
  | "hr_HR" => some ("克羅埃西亞文", "Croatian", "hr-HR")
  | "sr_RS" => some ("塞爾維亞文", "Serbian", "sr-RS")
  | "bg_BG" => some ("保加利亞文", "Bulgarian", "bg-BG")
  | "lt_LT" => some ("立陶宛文", "Lithuanian", "lt-LT")
  | "lv_LV" => some ("拉脫維亞文", "Latvian", "lv-LV")
  | "et_EE" => some ("愛沙尼亞文", "Estonian", "et-EE")
  | "is_IS" => some ("冰島文", "Icelandic", "is-IS")
  | "vi_VN" => some ("越南文", "Vietnamese", "vi-VN")
  | "th_TH" => some ("泰文", "Thai", "th-TH")
  | "id_ID" => some ("印尼文", "Indonesian", "id-ID")
  | "ms_MY" => some ("馬來文", "Malay", "ms-MY")
  | "tl_PH" => some ("菲律賓文", "Filipino", "fil-PH")
  | "hi_IN" => some ("印地文", "Hindi", "hi-IN")
  | "bn_IN" => some ("孟加拉文", "Bengali", "bn-IN")
  | "ta_IN" => some ("泰米爾文", "Tamil", "ta-IN")
  | "te_IN" => some ("泰盧固文", "Telugu", "te-IN")
  | "mr_IN" => some ("馬拉地文", "Marathi", "mr-IN")
  | "gu_IN" => some ("古吉拉特文", "Gujarati", "gu-IN")
  | "kn_IN" => some ("卡納達文", "Kannada", "kn-IN")
  | "ml_IN" => some ("馬拉雅拉姆文", "Malayalam", "ml-IN")
  | "pa_IN" => some ("旁遮普文", "Punjabi", "pa-IN")
  | "ur_PK" => some ("烏爾都文", "Urdu", "ur-PK")
  | "ar_SA" => some ("阿拉伯文", "Arabic", "ar-SA")
  | "he_IL" => some ("希伯來文", "Hebrew", "he-IL")
  | "fa_IR" => some ("波斯文", "Persian", "fa-IR")
  | "tr_TR" => some ("土耳其文", "Turkish", "tr-TR")
  | "sw_KE" => some ("斯瓦希里文(肯亞)", "Swahili", "sw-KE")
  | "sw_TZ" => some ("斯瓦希里文(坦尚尼亞)", "Swahili", "sw-TZ")
  | "zu_ZA" => some ("祖魯文", "Zulu", "zu-ZA")
  | _ => none

/-- `languages.get_language_info`: table lookup with an Unknown default. -/
def get_language_info (code : String) : String × String × String :=
  (LANGUAGES code).getD ("Unknown", "Unknown", code)

/-- The translation service as seen through `ollama.chat`: a prompt is sent
and either a response content comes back or an exception with a message is
raised. -/
structure Ollama where
  chat : List Char → Except (List Char) (List Char)

/-- `TranslateGemmaService._build_prompt`: the Traditional-Chinese special
template for target `zh_TW`, the generic template otherwise, with the source
text appended after `Translate the following text:`. -/
def build_prompt (text : List Char) (source_code target_code : String) : List Char :=
  let src := get_language_info source_code
  let tgt := get_language_info target_code
  if target_code = "zh_TW" then
    str "You are a professional " ++ str src.2.1 ++ str " (" ++ str src.2.2 ++
      str ") to Traditional Chinese (Taiwan) translator.\n\nIMPORTANT RULES:\n1. You MUST output ONLY Traditional Chinese characters (繁體字) as used in Taiwan.\n2. DO NOT use any Simplified Chinese characters (简体字).\n3. Examples of correct Traditional vs incorrect Simplified:\n   - 嗎 (correct) vs 吗 (wrong)\n   - 著 (correct) vs 着 (wrong)\n   - 這 (correct) vs 这 (wrong)\n   - 裡 (correct) vs 里 (wrong)\n   - 說 (correct) vs 说 (wrong)\n   - 軟體 (correct) vs 软件 (wrong)\n   - 網路 (correct) vs 网络 (wrong)\n\nPlease provide ONLY the Traditional Chinese translation without any additional explanations.\n\nTranslate the following text:\n\n" ++
      text
  else
    str "You are a professional " ++ str src.2.1 ++ str " (" ++ str src.2.2 ++
      str ") to " ++ str tgt.2.1 ++ str " (" ++ str tgt.2.2 ++
      str ") translator.\nYour goal is to accurately convey the meaning and nuances of the original " ++
      str src.2.1 ++ str " text \nwhile adhering to " ++ str tgt.2.1 ++
      str " grammar, style, and conventions.\n\nPlease provide ONLY the " ++ str tgt.2.1 ++
      str " translation without any additional explanations or commentary.\n\nTranslate the following text:\n\n" ++
      text

/-- Head of the error string rendered by the exception handler of
`TranslateGemmaService.translate`. -/
def errTag : List Char := str "❌ 翻譯錯誤: "

/-- `TranslateGemmaService.translate`: empty input short-circuits to the
empty string; otherwise `ollama.chat` is called with the built prompt and
any exception is caught and rendered as the error tag followed by the
exception message — the function never raises. -/
def translate (svc : Ollama) (text : List Char) (source_code target_code : String) : List Char :=
  if pyStrip text = [] then []
  else
    match svc.chat (build_prompt text source_code target_code) with
    | Except.ok content => content
    | Except.error e => errTag ++ e

/-! ## Length-aware segment translation (`VideoDubber.translate_segments`) -/

/-- The SPEECH RATE table of `translate_segments` (characters per second),
looked up by the full language code first, then by its first two characters,
then the default of 3. -/
def speechRateLookup (k : String) : Option ℚ :=
  if k = "zh_TW" ∨ k = "zh_CN" then some 4
  else if k = "ja" then some 5
  else if k = "ko" then some (9/2)
  else if k = "en" then some (5/2)
  else if k = "de" then some (23/10)
  else if k = "fr" then some (5/2)
  else if k = "es" then some (14/5)
  else none

/-- The rate `SPEECH_RATE.get(target_lang, SPEECH_RATE.get(target_lang[:2],
SPEECH_RATE["default"]))`. -/
def target_rate (target_lang : String) : ℚ :=
  (speechRateLookup target_lang).getD
    ((speechRateLookup (String.mk (target_lang.data.take 2))).getD 3)

/-- Python `format(q, ".1f")` restricted to the tie-free case: one decimal
digit.  Python rounds ties half to even; no claim depends on this text, and
the embedded half-up rounding agrees with Python away from exact ties. -/
def fmt1 (q : ℚ) : List Char :=
  let n : ℤ := round (10 * q)
  intToDec (n / 10) ++ '.' :: intToDec (n % 10)

/-- The length hint appended to the dubbing prompt: character-count based
for European languages, word-count based otherwise. -/
def length_hint (target_lang : String) (duration : ℚ) : List Char :=
  if (str "en").isPrefixOf target_lang.data
      ∨ target_lang ∈ ["de", "fr", "es", "it", "pt", "ru"] then
    str "Keep translation under " ++ intToDec (pyInt (duration * 12)) ++
      str " characters (including spaces)."
  else
    str "Keep translation under " ++ intToDec (pyInt (duration * target_rate target_lang)) ++
      str " characters."

/-- The marker opening the dubbing-mode prompt. -/
def dubbingMarker : List Char := str "[DUBBING MODE]"

/-- The length-aware prompt built by `translate_segments` for one segment. -/
def length_aware_prompt (target_lang : String) (seg : Segment) : List Char :=
  dubbingMarker ++ str " Translate concisely for voice dubbing. \nTime limit: " ++
    fmt1 (seg.«end» - seg.start) ++ str " seconds. " ++
    length_hint target_lang (seg.«end» - seg.start) ++
    str "\nUse natural, spoken language. Simplify if needed while preserving meaning.\n\n" ++
    seg.text

/-- The cleanup applied to the translation: if the model echoed the dubbing
marker, keep only the stripped last line of the output. -/
def cleanupDubbing (translated : List Char) : List Char :=
  if containsSub dubbingMarker translated then
    pyStrip (((splitSep '\n' translated).getLast?).getD [])
  else translated

/-- `VideoDubber.translate_segments`: for each segment in order, build the
length-aware prompt, translate it through the service, clean the result up
and store it in `translated_text`. -/
def translate_segments (svc : Ollama) (segments : List Segment)
    (target_lang : String) (source_lang : String) : List Segment :=
  segments.map fun seg =>
    { seg with translated_text :=
        cleanupDubbing (translate svc (length_aware_prompt target_lang seg)
          source_lang target_lang) }

/-! ## Speech synthesis (`VideoDubber.synthesize_all_audio`) -/

/-- The clip path `tts_0000.mp3` style name used by
`synthesize_segment_audio` inside `output_dir`. -/
def tts_path (output_dir : List Char) (i : ℕ) : List Char :=
  output_dir ++ str "/tts_" ++ pad 4 (natToDec i) ++ str ".mp3"

/-- Result of the synthesis stage: the updated segments, the log of calls
made to the synthesis collaborator as (segment index, text handed over)
pairs, and the file system with the written clips. -/
structure SynthOut where
  segments : List Segment
  calls : List (ℕ × List Char)
  fs : Fs

/-- A clip written to disk: it exists, and probes at the duration the
synthesis collaborator produced for that path. -/
def writeClip (clipDur : List Char → Option ℚ) (p : List Char) (fs : Fs) : Fs where
  dur := fun q => if q = p then clipDur p else fs.dur q
  onDisk := fun q => if q = p then true else fs.onDisk q

/-- `VideoDubber.synthesize_all_audio` together with
`synthesize_segment_audio`: the loop awaits `synthesize_segment_audio` for
every segment in index order, with no check on `translated_text`; each call
hands the segment's `translated_text` to the synthesis collaborator
(`edge_tts.Communicate`), saves the clip under the indexed name and stores
that path on the segment.  The collaborator is modelled as always writing a
clip whose probed duration is `clipDur path`. -/
def synthesize_all_audio (clipDur : List Char → Option ℚ) (fs : Fs)
    (segments : List Segment) (output_dir : List Char) : SynthOut where
  segments := segments.enum.map fun q => { q.2 with audio_path := tts_path output_dir q.1 }
  calls := segments.enum.map fun q => (q.1, q.2.translated_text)
  fs := (List.range segments.length).foldl
    (fun f i => writeClip clipDur (tts_path output_dir i) f) fs

/-! ## Subtitle generation (`VideoDubber.generate_srt`) -/

/-- The `format_time` helper of `generate_srt`.  Python computes
`int(seconds // 3600)`, `int((seconds % 3600) // 60)`, `int(seconds % 60)`
and `int((seconds % 1) * 1000)`; the first two apply `int` to an already
floored value and the last two apply it to the nonnegative result of a
positive-modulus `%`, so all four are floors. -/
def format_time (seconds : ℚ) : List Char :=
  let hours : ℤ := ⌊seconds / 3600⌋
  let minutes : ℤ := ⌊pyMod seconds 3600 / 60⌋
  let secs : ℤ := ⌊pyMod seconds 60⌋
  let millis : ℤ := ⌊pyMod seconds 1 * 1000⌋
  pad 2 (intToDec hours) ++ ':' :: pad 2 (intToDec minutes) ++ ':' ::
    pad 2 (intToDec secs) ++ ',' :: pad 3 (intToDec millis)

/-- The text column chosen by `generate_srt`. -/
def srt_text (use_translated : Bool) (seg : Segment) : List Char :=
  if use_translated then seg.translated_text else seg.text

/-- One block written by `generate_srt`: index line, time-range line, text,
blank line. -/
def srt_block (i : ℕ) (use_translated : Bool) (seg : Segment) : List Char :=
  natToDec i ++ '\n' :: format_time seg.start ++ str " --> " ++ format_time seg.«end» ++
    '\n' :: srt_text use_translated seg ++ str "\n\n"

/-- The blocks written for the segment list, with indices counted from `i`. -/
def srt_content (i : ℕ) (use_translated : Bool) : List Segment → List Char
  | [] => []
  | seg :: rest => srt_block i use_translated seg ++ srt_content (i + 1) use_translated rest

/-- `VideoDubber.generate_srt`: the full content written to the subtitle
file, blocks enumerated from 1. -/
def generate_srt (segments : List Segment) (use_translated : Bool) : List Char :=
  srt_content 1 use_translated segments

/-! ## A standard parser for the generated subtitle files -/

/-- Parse one clock `HH:MM:SS,mmm` into seconds. -/
def parseClock (t : List Char) : Option ℚ :=
  match splitSep ':' t with
  | [h, m, sms] =>
      match splitSep ',' sms with
      | [s, ms] => some ((decToNat h : ℚ) * 3600 + (decToNat m : ℚ) * 60 +
          (decToNat s : ℚ) + (decToNat ms : ℚ) / 1000)
      | _ => none
  | _ => none

/-- Parse a time-range line `HH:MM:SS,mmm --> HH:MM:SS,mmm`. -/
def parseTimeLine (line : List Char) : Option (ℚ × ℚ) :=
  match splitSep ' ' line with
  | [t1, ar, t2] =>
      if ar = str "-->" then
        match parseClock t1, parseClock t2 with
        | some a, some b => some (a, b)
        | _, _ => none
      else none
  | _ => none

/-- Collect the text lines of a block, up to the terminating blank line. -/
def takeTextLines : List (List Char) → List (List Char) × List (List Char)
  | [] => ([], [])
  | [] :: rest => ([], rest)
  | (c :: l) :: rest =>
      let p := takeTextLines rest
      ((c :: l) :: p.1, p.2)

/-- Rejoin the text lines of a block. -/
def joinLines : List (List Char) → List Char
  | [] => []
  | [l] => l
  | l :: l2 :: ls => l ++ '\n' :: joinLines (l2 :: ls)

/-- Fuel-driven block parser over the line list: each block is an index
line, a time-range line and the text lines up to a blank line; the file ends
with one final empty line. -/
def parseBlocksAux : ℕ → List (List Char) → Option (List (ℕ × ℚ × ℚ × List Char))
  | _, [[]] => some []
  | fuel + 1, idxLine :: timeLine :: rest =>
      match parseTimeLine timeLine with
      | none => none
      | some se =>
          let p := takeTextLines rest
          match parseBlocksAux fuel p.2 with
          | none => none
          | some bs => some ((decToNat idxLine, se.1, se.2, joinLines p.1) :: bs)
  | _, _ => none

/-- Parse a generated subtitle file back into (index, start, end, text)
blocks. -/
def parse_srt (file : List Char) : Option (List (ℕ × ℚ × ℚ × List Char)) :=
  parseBlocksAux (file.length + 1) (splitSep '\n' file)

/-- Truncation of a time stamp to whole milliseconds — the value a generated
time range parses back to. -/
def msTrunc (q : ℚ) : ℚ := (⌊1000 * q⌋ : ℚ) / 1000

/-- The line decomposition of the file `generate_srt` writes: each segment
contributes its index line, its time-range line, its text line and a blank
line (faithful to the written characters whenever no text contains a
newline). -/
def srt_lines (i : ℕ) (u : Bool) : List Segment → List (List Char)
  | [] => []
  | seg :: rest =>
      natToDec i :: (format_time seg.start ++ (str " --> " ++ format_time seg.«end»)) ::
        srt_text u seg :: [] :: srt_lines (i + 1) u rest

/-- The blocks a correct parse of the generated file must return: sequential
indices counted from `i`, millisecond-truncated times, the chosen text. -/
def srt_expected (i : ℕ) (u : Bool) : List Segment → List (ℕ × ℚ × ℚ × List Char)
  | [] => []
  | seg :: rest =>
      (i, msTrunc seg.start, msTrunc seg.«end», srt_text u seg) :: srt_expected (i + 1) u rest

/-! ## Batch orchestration (`VideoDubber.process_video_batch`) -/

/-- The per-language artifacts recorded in the batch result. -/
structure LangResult where
  translated_srt : List Char
  dubbed_video : Option (List Char)
  deriving DecidableEq, Repr

/-- State of the batch run.  Python mutates `Segment` objects in place, so
segment lists live in an explicit heap: index 0 holds the shared
post-transcription sequence and each language's deep copy is a fresh heap
entry; aliasing instead of deep-copying would reuse entry 0. -/
structure BatchState where
  heap : List (List Segment)
  fs : Fs
  results : List (String × LangResult)

/-- External collaborators of a batch run: the translation service and the
durations of the clips the synthesis collaborator produces. -/
structure BatchEnv where
  svc : Ollama
  clipDur : List Char → Option ℚ

/-- Read a heap entry. -/
def heapGet (h : List (List Segment)) (r : ℕ) : List Segment := (h.get? r).getD []

/-- One iteration of the per-language loop of `process_video_batch`: make
the language directory, deep-copy the shared segments (a fresh heap entry),
translate the copy in place, record the translated subtitle path, synthesize
all clips, probe the source duration, merge the dubbed track and, when the
merge returned a path, mux the video.  Synthesis and muxing are modelled as
always completing; a failing translation service is caught inside
`translate` and never escapes this loop body. -/
def process_language (env : BatchEnv) (job_dir : List Char) (source_lang : String)
    (audio_path : List Char) (segRef : ℕ) (st : BatchState) (target_lang : String) :
    BatchState :=
  let lang_dir := job_dir ++ '/' :: str target_lang
  let rL := st.heap.length
  let heap1 := st.heap ++ [heapGet st.heap segRef]
  let lang_segments := translate_segments env.svc (heapGet heap1 rL) target_lang source_lang
  let heap2 := heap1.set rL lang_segments
  let translated_srt := lang_dir ++ str "/translated.srt"
  let so := synthesize_all_audio env.clipDur st.fs lang_segments lang_dir
  let heap3 := heap2.set rL so.segments
  let total_duration := get_audio_duration so.fs audio_path
  let mo := merge_dubbed_audio so.fs so.segments total_duration lang_dir
  let dubbed_video := if mo.output_path = [] then none
    else some (lang_dir ++ str "/dubbed_video.mp4")
  { heap := heap3, fs := mo.fs,
    results := st.results ++
      [(target_lang, { translated_srt := translated_srt, dubbed_video := dubbed_video })] }

/-- `VideoDubber.process_video_batch` from its per-language fan-out point:
acquisition and transcription have produced `segments` (heap entry 0) and an
`audio_path` readable through `fs`; the loop then processes each target
language in the requested order against its own deep copy and sub-directory,
appending one keyed entry to the results per language. -/
def process_video_batch (env : BatchEnv) (fs : Fs) (job_dir : List Char)
    (source_lang : String) (audio_path : List Char) (target_langs : List String)
    (segments : List Segment) : BatchState :=
  target_langs.foldl (process_language env job_dir source_lang audio_path 0)
    { heap := [segments], fs := fs, results := [] }

/-- The segments a single language's pipeline derives from the shared
post-transcription sequence: translation of the deep copy followed by the
synthesis stage's path assignment.  This is a function of the pristine
shared sequence only. -/
def perLangSegs (env : BatchEnv) (job_dir : List Char) (source_lang : String)
    (target_lang : String) (segments : List Segment) : List Segment :=
  (translate_segments env.svc segments target_lang source_lang).enum.map fun q =>
    { q.2 with audio_path := tts_path (job_dir ++ '/' :: str target_lang) q.1 }

/-! ## Concrete fixtures used by the witnesses and counterexamples -/

/-- A file system with no readable files. -/
def fsEmpty : Fs where
  dur := fun _ => none
  onDisk := fun _ => false

/-- A file system holding one 0.4-second clip. -/
def fsShort : Fs where
  dur := fun q => if q = str "tts_0000.mp3" then some (2/5) else none
  onDisk := fun q => q = str "tts_0000.mp3"

/-- A file system holding one 2-second clip. -/
def fsLong : Fs where
  dur := fun q => if q = str "tts_0000.mp3" then some 2 else none
  onDisk := fun q => q = str "tts_0000.mp3"

/-- A file system for the mixer counterexamples: the clip file exists on
disk, so the mixer does not skip it, but its probe fails, so the speed
adjustment passes it through untouched. -/
def fsMix : Fs where
  dur := fun _ => none
  onDisk := fun q => q = str "tts_0001.mp3"

/-- A segment whose synthesis produced no clip. -/
def segNoClip : Segment := { start := 0, «end» := 1, text := str "hi" }

/-- A segment with a usable one-second clip in slot 2 s – 3 s. -/
def segClip : Segment :=
  { start := 2, «end» := 3, text := str "there", translated_text := str "da",
    audio_path := str "tts_0001.mp3" }

/-- A segment starting at 0.0019 s with a usable clip, for the delay
rounding counterexample. -/
def segDelay : Segment :=
  { start := 19/10000, «end» := 1 + 19/10000, text := str "hi",
    translated_text := str "da", audio_path := str "tts_0001.mp3" }

/-- A segment whose text contains a blank line, breaking the subtitle
format. -/
def segNewline : Segment := { start := 0, «end» := 1, text := str "a\n\nb" }

/-- A plain two-segment transcription with empty translations. -/
def segsPlain : List Segment :=
  [{ start := 0, «end» := 4, text := str "hello" },
   { start := 5, «end» := 9, text := str "world" }]

/-- A translation service that always answers. -/
def svcOk : Ollama where
  chat := fun _ => Except.ok (str "done")

/-- A translation service whose calls always raise. -/
def svcDown : Ollama where
  chat := fun _ => Except.error (str "connection refused")

/-- A batch environment over the always-answering service with one-second
synthesized clips. -/
def envOk : BatchEnv where
  svc := svcOk
  clipDur := fun _ => some 1

/-- A batch environment whose translation service always raises. -/
def envDown : BatchEnv where
  svc := svcDown
  clipDur := fun _ => some 1


theorem get_runAtempo_out (fs : Fs) (inp outp : List Char) (f : ℚ) :
    get_audio_duration (runAtempo fs inp outp f) outp = ((fs.dur inp).map (· / f)).getD 0 := by
  simp [get_audio_duration, runAtempo]

theorem get_runTruncate_out (fs : Fs) (inp outp : List Char) (t : ℚ) :
    get_audio_duration (runTruncate fs inp outp t) outp
      = ((fs.dur inp).map (fun d => min d t)).getD 0 := by
  simp [get_audio_duration, runTruncate]

theorem C1_cex :
    ¬ (|get_audio_duration (adjust_audio_speed fsShort (str "tts_0000.mp3") 1).fs
          (adjust_audio_speed fsShort (str "tts_0000.mp3") 1).path - 1| ≤ 1 * (5/100)
        ∨ get_audio_duration fsShort (str "tts_0000.mp3") ≤ 0) := by
  have hd : get_audio_duration fsShort (str "tts_0000.mp3") = 2/5 := by
    simp [get_audio_duration, fsShort]
  have hsome : fsShort.dur (str "tts_0000.mp3") = some (2/5) := by
    simp [fsShort]
  have hdur : get_audio_duration (adjust_audio_speed fsShort (str "tts_0000.mp3") 1).fs
      (adjust_audio_speed fsShort (str "tts_0000.mp3") 1).path = 8/17 := by
    simp only [adjust_audio_speed, hd]
    rw [if_neg (by norm_num : ¬ ((2/5 : ℚ) ≤ 0))]
    have hf : max (0.85 : ℚ) (min 1.25 (2/5 / 1)) = 17/20 := by
      rw [min_eq_right (by norm_num : (2/5/1 : ℚ) ≤ 1.25),
        max_eq_left (by norm_num : (2/5/1 : ℚ) ≤ 0.85)]
      norm_num
    rw [hf]
    rw [if_neg (by rw [abs_of_nonpos (by norm_num : (17/20 : ℚ) - 1 ≤ 0)]; norm_num :
      ¬ (|(17/20 : ℚ) - 1| < 0.05))]
    rw [get_runAtempo_out, hsome]
    simp only [Option.map_some', Option.getD_some]
    rw [if_neg (by norm_num : ¬ ((2/5 : ℚ) / (17/20) > 1 * 1.05))]
    dsimp only
    rw [get_runAtempo_out, hsome]
    simp only [Option.map_some', Option.getD_some]
    norm_num
  rw [hdur, hd]
  rw [abs_of_nonpos (by norm_num : (8/17 : ℚ) - 1 ≤ 0)]
  norm_num

theorem runAtempo_dur_self (fs : Fs) (inp outp : List Char) (f : ℚ) :
    (runAtempo fs inp outp f).dur outp = (fs.dur inp).map (· / f) := by
  simp [runAtempo]

theorem C1_align_bounded (fs : Fs) (p : List Char) (t : ℚ) (ht : 0 < t) :
    get_audio_duration (adjust_audio_speed fs p t).fs (adjust_audio_speed fs p t).path
        ≤ t * (1 + 5/100)
    ∨ (get_audio_duration fs p ≤ 0 ∧ (adjust_audio_speed fs p t).fs = fs
        ∧ (adjust_audio_speed fs p t).path = p) := by
  simp only [adjust_audio_speed]
  split_ifs with h1 h2 h3
  · exact Or.inr ⟨h1, rfl, rfl⟩
  · left
    push_neg at h1
    show get_audio_duration fs p ≤ t * (1 + 5/100)
    by_contra hc
    push_neg at hc
    have hdt : (1.05 : ℚ) ≤ get_audio_duration fs p / t := by
      rw [le_div_iff₀ ht]; nlinarith
    have hm : (1.05 : ℚ) ≤ min 1.25 (get_audio_duration fs p / t) :=
      le_min (by norm_num) hdt
    have hfge : (1.05 : ℚ) ≤ max 0.85 (min 1.25 (get_audio_duration fs p / t)) :=
      le_trans hm (le_max_right _ _)
    have := (abs_lt.mp h2).2
    linarith
  · left
    push_neg at h1
    dsimp only
    rw [get_runTruncate_out]
    rcases hfd : fs.dur p with _ | d0
    · simp [get_audio_duration, hfd] at h1
    · rw [runAtempo_dur_self, hfd]
      simp only [Option.map_some', Option.getD_some]
      have hmin := min_le_right (d0 / max (0.85 : ℚ) (min 1.25 (get_audio_duration fs p / t))) t
      linarith
  · left
    push_neg at h3
    dsimp only
    linarith

theorem C1_align_bounded_witness :
    get_audio_duration (adjust_audio_speed fsEmpty (str "a.mp3") 1).fs
        (adjust_audio_speed fsEmpty (str "a.mp3") 1).path ≤ 1 * (1 + 5/100)
    ∨ (get_audio_duration fsEmpty (str "a.mp3") ≤ 0 ∧
        (adjust_audio_speed fsEmpty (str "a.mp3") 1).fs = fsEmpty ∧
        (adjust_audio_speed fsEmpty (str "a.mp3") 1).path = str "a.mp3") :=
  C1_align_bounded fsEmpty (str "a.mp3") 1 (by norm_num)

theorem C5_stretch_factor_clamped (fs : Fs) (p : List Char) (t : ℚ) (f : ℚ)
    (hf : (adjust_audio_speed fs p t).factorApplied = some f) :
    f = max 0.85 (min 1.25 (get_audio_duration fs p / t)) ∧
    0.85 ≤ f ∧ f ≤ 1.25 ∧
    ((get_audio_duration fs p / t < 0.85 ∨ 1.25 < get_audio_duration fs p / t) →
      (adjust_audio_speed fs p t).warned = true) := by
  simp only [adjust_audio_speed] at hf ⊢
  split_ifs at hf ⊢ with h1 h2 h3 <;> dsimp only at hf ⊢ <;>
    first
      | exact Option.noConfusion hf
      | (rw [Option.some.injEq] at hf
         subst hf
         exact ⟨rfl, le_max_left _ _, max_le (by norm_num) (min_le_left _ _),
           fun h => decide_eq_true h⟩)

theorem C5_factor_applied_fsLong :
    (adjust_audio_speed fsLong (str "tts_0000.mp3") 1).factorApplied = some (5/4) := by
  have hd : get_audio_duration fsLong (str "tts_0000.mp3") = 2 := by
    simp [get_audio_duration, fsLong]
  have hsome : fsLong.dur (str "tts_0000.mp3") = some 2 := by
    simp [fsLong]
  simp only [adjust_audio_speed, hd]
  rw [if_neg (by norm_num : ¬ ((2 : ℚ) ≤ 0))]
  have hf : max (0.85 : ℚ) (min 1.25 (2 / 1)) = 5/4 := by
    rw [min_eq_left (by norm_num : (1.25 : ℚ) ≤ 2 / 1),
      max_eq_right (by norm_num : (0.85 : ℚ) ≤ 1.25)]
    norm_num
  rw [hf]
  rw [if_neg (by rw [abs_of_nonneg (by norm_num : (0:ℚ) ≤ 5/4 - 1)]; norm_num :
    ¬ (|(5/4 : ℚ) - 1| < 0.05))]
  rw [get_runAtempo_out, hsome]
  simp only [Option.map_some', Option.getD_some]
  rw [if_pos (by norm_num : (2 : ℚ) / (5/4) > 1 * 1.05)]

theorem C5_stretch_factor_clamped_witness :
    (5/4 : ℚ) = max 0.85 (min 1.25 (get_audio_duration fsLong (str "tts_0000.mp3") / 1)) ∧
    (0.85 : ℚ) ≤ 5/4 ∧ (5/4 : ℚ) ≤ 1.25 ∧
    ((get_audio_duration fsLong (str "tts_0000.mp3") / 1 < 0.85 ∨
        1.25 < get_audio_duration fsLong (str "tts_0000.mp3") / 1) →
      (adjust_audio_speed fsLong (str "tts_0000.mp3") 1).warned = true) :=
  C5_stretch_factor_clamped fsLong (str "tts_0000.mp3") 1 (5/4) C5_factor_applied_fsLong

theorem C10_probe_failure_guard (fs : Fs) (p : List Char) (t : ℚ) (h : fs.dur p = none) :
    get_audio_duration fs p = 0 ∧
    (adjust_audio_speed fs p t).fs = fs ∧ (adjust_audio_speed fs p t).path = p ∧
    (adjust_audio_speed fs p t).factorApplied = none := by
  have h0 : get_audio_duration fs p = 0 := by simp [get_audio_duration, h]
  refine ⟨h0, ?_⟩
  simp only [adjust_audio_speed, h0]
  rw [if_pos (le_refl (0 : ℚ))]
  exact ⟨rfl, rfl, rfl⟩

theorem C10_probe_failure_guard_witness :
    get_audio_duration fsEmpty (str "a.mp3") = 0 ∧
    (adjust_audio_speed fsEmpty (str "a.mp3") 1).fs = fsEmpty ∧
    (adjust_audio_speed fsEmpty (str "a.mp3") 1).path = str "a.mp3" ∧
    (adjust_audio_speed fsEmpty (str "a.mp3") 1).factorApplied = none :=
  C10_probe_failure_guard fsEmpty (str "a.mp3") 1 rfl


theorem adjust_unreadable (fs : Fs) (p : List Char) (t : ℚ) (h : fs.dur p = none) :
    adjust_audio_speed fs p t = { fs := fs, path := p, factorApplied := none, warned := false } := by
  have h0 : get_audio_duration fs p = 0 := by simp [get_audio_duration, h]
  simp only [adjust_audio_speed, h0]
  rw [if_pos (le_refl (0 : ℚ))]

theorem mergeStep_skip (fs : Fs) (inputs : List (List Char)) (parts : List (ℕ × ℤ))
    (i : ℕ) (seg : Segment)
    (h : seg.audio_path = [] ∨ fs.onDisk seg.audio_path = false) :
    mergeStep (fs, inputs, parts) (i, seg) = (fs, inputs, parts) := by
  simp only [mergeStep]
  rw [if_pos h]

theorem mergeStep_unreadable (fs : Fs) (inputs : List (List Char)) (parts : List (ℕ × ℤ))
    (i : ℕ) (seg : Segment)
    (h1 : seg.audio_path ≠ []) (h2 : fs.onDisk seg.audio_path = true)
    (h3 : fs.dur seg.audio_path = none) :
    mergeStep (fs, inputs, parts) (i, seg) =
      (fs, inputs ++ [seg.audio_path], parts ++ [(i, pyInt (seg.start * 1000))]) := by
  simp only [mergeStep]
  rw [if_neg (by rintro (h | h); exact h1 h; rw [h2] at h; cases h)]
  rw [adjust_unreadable fs seg.audio_path _ h3]

theorem merge_mix_cex_eval :
    (merge_dubbed_audio fsMix [segNoClip, segClip] 10 (str "job")).inputs = [str "tts_0001.mp3"] ∧
    (merge_dubbed_audio fsMix [segNoClip, segClip] 10 (str "job")).filter_parts
      = [(1, pyInt (segClip.start * 1000))] := by
  have henum : ([segNoClip, segClip]).enum = [(0, segNoClip), (1, segClip)] := rfl
  have hfold : ([segNoClip, segClip]).enum.foldl mergeStep (fsMix, [], [])
      = (fsMix, [str "tts_0001.mp3"], [(1, pyInt (segClip.start * 1000))]) := by
    rw [henum]
    rw [List.foldl_cons, mergeStep_skip _ _ _ _ _ (Or.inl rfl)]
    rw [List.foldl_cons, mergeStep_unreadable _ _ _ _ _ (by decide) rfl rfl]
    rfl
  constructor <;>
    · simp only [merge_dubbed_audio, hfold]
      rw [if_neg (by simp)]

theorem C2_mix_skip_breaks_graph :
    (merge_dubbed_audio fsMix [segNoClip, segClip] 10 (str "job")).inputs.length = 1 ∧
    (merge_dubbed_audio fsMix [segNoClip, segClip] 10 (str "job")).filter_parts.map Prod.fst
      = [1] ∧
    (merge_dubbed_audio fsMix [segNoClip, segClip] 10 (str "job")).output_path ≠ [] ∧
    ¬ filterGraphValid (merge_dubbed_audio fsMix [segNoClip, segClip] 10 (str "job")) := by
  obtain ⟨hi, hp⟩ := merge_mix_cex_eval
  refine ⟨by rw [hi]; rfl, by rw [hp]; rfl, ?_, ?_⟩
  · simp only [merge_dubbed_audio]
    rw [if_neg ?hno]
    · simp [str]
    · have henum : ([segNoClip, segClip]).enum = [(0, segNoClip), (1, segClip)] := rfl
      rw [henum, List.foldl_cons, mergeStep_skip _ _ _ _ _ (Or.inl rfl),
        List.foldl_cons, mergeStep_unreadable _ _ _ _ _ (by decide) rfl rfl]
      simp
  · rintro ⟨hlt, hlab⟩
    rw [hp, hi] at *
    have := hlt (1, pyInt (segClip.start * 1000)) (by rw [hp]; exact List.mem_singleton_self _)
    rw [hi] at this
    simp at this

theorem pyInt_segDelay : pyInt (segDelay.start * 1000) = 1 := by
  have h : segDelay.start * 1000 = 19/10 := by norm_num [segDelay]
  rw [h, pyInt, if_neg (by norm_num : ¬ ((19/10 : ℚ) < 0))]
  rw [Int.floor_eq_iff]
  norm_num

theorem merge_segDelay_parts :
    (merge_dubbed_audio fsMix [segDelay] 10 (str "job")).filter_parts = [(0, 1)] := by
  have henum : ([segDelay]).enum = [(0, segDelay)] := rfl
  have hfold : ([segDelay]).enum.foldl mergeStep (fsMix, [], [])
      = (fsMix, [str "tts_0001.mp3"], [(0, pyInt (segDelay.start * 1000))]) := by
    rw [henum, List.foldl_cons, mergeStep_unreadable _ _ _ _ _ (by decide) rfl rfl]
    rfl
  simp only [merge_dubbed_audio, hfold, pyInt_segDelay]
  rw [if_neg (by simp)]

theorem C7_cex :
    (merge_dubbed_audio fsMix [segDelay] 10 (str "job")).filter_parts = [(0, 1)] ∧
    round (segDelay.start * 1000) = (2 : ℤ) ∧ (1 : ℤ) ≠ 2 := by
  refine ⟨merge_segDelay_parts, ?_, by decide⟩
  have h : segDelay.start * 1000 = 19/10 := by norm_num [segDelay]
  rw [h, round_eq, Int.floor_eq_iff]
  norm_num

theorem mergeStep_parts_sub (acc : Fs × List (List Char) × List (ℕ × ℤ)) (q : ℕ × Segment)
    (pr : ℕ × ℤ) (hpr : pr ∈ (mergeStep acc q).2.2) :
    pr ∈ acc.2.2 ∨ pr = (q.1, pyInt (q.2.start * 1000)) := by
  obtain ⟨fs, inputs, parts⟩ := acc
  obtain ⟨i, seg⟩ := q
  simp only [mergeStep] at hpr
  split_ifs at hpr with hc
  · exact Or.inl hpr
  · rcases List.mem_append.mp hpr with h | h
    · exact Or.inl h
    · exact Or.inr (List.mem_singleton.mp h)

theorem mergeFold_parts (segs : List Segment) :
    ∀ (l : List (ℕ × Segment)), (∀ q ∈ l, segs.get? q.1 = some q.2) →
    ∀ (acc : Fs × List (List Char) × List (ℕ × ℤ)),
      (∀ pr ∈ acc.2.2, ∃ seg, segs.get? pr.1 = some seg ∧ pr.2 = pyInt (seg.start * 1000)) →
      ∀ pr ∈ (l.foldl mergeStep acc).2.2,
        ∃ seg, segs.get? pr.1 = some seg ∧ pr.2 = pyInt (seg.start * 1000) := by
  intro l
  induction l with
  | nil => intro _ acc hacc pr hpr; exact hacc pr hpr
  | cons a l ih =>
      intro hl acc hacc pr hpr
      rw [List.foldl_cons] at hpr
      refine ih (fun q hq => hl q (List.mem_cons_of_mem a hq)) (mergeStep acc a) ?_ pr hpr
      intro pr' hpr'
      rcases mergeStep_parts_sub acc a pr' hpr' with h | h
      · exact hacc pr' h
      · exact ⟨a.2, by rw [h]; exact hl a (List.mem_cons_self a l), by rw [h]⟩

theorem pyInt_floor_bounds (q : ℚ) (h : 0 ≤ q) :
    ((pyInt q : ℚ) ≤ q ∧ q < pyInt q + 1) := by
  rw [pyInt, if_neg (not_lt.mpr h)]
  constructor
  · exact_mod_cast Int.floor_le q
  · have := Int.lt_floor_add_one q
    exact_mod_cast this

theorem C7_delay_is_truncation (fs : Fs) (segments : List Segment) (t : ℚ) (dir : List Char)
    (pr : ℕ × ℤ) (hpr : pr ∈ (merge_dubbed_audio fs segments t dir).filter_parts) :
    ∃ seg, segments.get? pr.1 = some seg ∧ pr.2 = pyInt (seg.start * 1000) ∧
      (0 ≤ seg.start → (pr.2 : ℚ) ≤ seg.start * 1000 ∧ seg.start * 1000 < pr.2 + 1) := by
  have hmem : pr ∈ (segments.enum.foldl mergeStep (fs, [], [])).2.2 := by
    simp only [merge_dubbed_audio] at hpr
    split_ifs at hpr with hc
    · simp at hpr
    · exact hpr
  have henum : ∀ q ∈ segments.enum, segments.get? q.1 = some q.2 := by
    intro q hq
    rw [List.get?_eq_getElem?]
    exact List.mem_enum_iff_getElem?.mp hq
  obtain ⟨seg, hseg, hdelay⟩ :=
    mergeFold_parts segments segments.enum henum (fs, [], []) (by intro pr' h; cases h) pr hmem
  refine ⟨seg, hseg, hdelay, fun hs => ?_⟩
  have := pyInt_floor_bounds (seg.start * 1000) (by positivity)
  rw [← hdelay] at this
  exact this

theorem C7_delay_is_truncation_witness :
    ∃ seg, ([segDelay] : List Segment).get? (0, (1:ℤ)).1 = some seg ∧
      (0, (1:ℤ)).2 = pyInt (seg.start * 1000) ∧
      (0 ≤ seg.start → (((0, (1:ℤ)).2 : ℚ) ≤ seg.start * 1000 ∧
        seg.start * 1000 < (0, (1:ℤ)).2 + 1)) :=
  C7_delay_is_truncation fsMix [segDelay] 10 (str "job") (0, 1)
    (by rw [merge_segDelay_parts]; exact List.mem_singleton_self _)


theorem mem_dropWhile_of_mem (p : Char → Bool) (l : List Char) (c : Char)
    (hc : c ∈ l) (hp : p c = false) : c ∈ l.dropWhile p := by
  induction l with
  | nil => cases hc
  | cons a l ih =>
      rw [List.dropWhile_cons]
      by_cases ha : p a = true
      · rw [if_pos ha]
        rcases List.mem_cons.mp hc with rfl | hc'
        · rw [hp] at ha; cases ha
        · exact ih hc'
      · rw [if_neg ha]
        exact hc

theorem pyStrip_ne_nil (l : List Char) (c : Char) (hc : c ∈ l) (hcs : pySpace c = false) :
    pyStrip l ≠ [] := by
  unfold pyStrip
  intro h
  rw [List.reverse_eq_nil_iff] at h
  have h2 := List.dropWhile_eq_nil_iff.mp h
  have hm : c ∈ (l.dropWhile pySpace).reverse := by
    rw [List.mem_reverse]
    exact mem_dropWhile_of_mem pySpace l c hc hcs
  have := h2 c hm
  rw [hcs] at this
  cases this

theorem prompt_strip_ne_nil (target_lang : String) (seg : Segment) :
    pyStrip (length_aware_prompt target_lang seg) ≠ [] := by
  refine pyStrip_ne_nil _ '[' ?_ (by decide)
  have h : '[' ∈ dubbingMarker := by decide
  unfold length_aware_prompt
  simp only [List.append_assoc]
  exact List.mem_append.mpr (Or.inl h)

theorem cleanupDubbing_no_marker (t : List Char) (h : containsSub dubbingMarker t = false) :
    cleanupDubbing t = t := by
  unfold cleanupDubbing
  rw [if_neg (by rw [h]; exact Bool.false_ne_true)]

theorem translate_segments_service_down (svc : Ollama) (segments : List Segment)
    (target_lang source_lang : String) (e : List Char)
    (hfail : ∀ prompt, svc.chat prompt = Except.error e)
    (hmark : containsSub dubbingMarker (errTag ++ e) = false) :
    translate_segments svc segments target_lang source_lang
      = segments.map (fun seg => { seg with translated_text := errTag ++ e }) := by
  unfold translate_segments
  apply List.map_congr_left
  intro seg hseg
  have htr : translate svc (length_aware_prompt target_lang seg) source_lang target_lang
      = errTag ++ e := by
    rw [translate, if_neg (prompt_strip_ne_nil target_lang seg), hfail]
  rw [htr, cleanupDubbing_no_marker _ hmark]

theorem srt_text_infix (i : ℕ) (seg : Segment) (rest : List Segment) (u : Bool) :
    srt_text u seg <:+: srt_content i u (seg :: rest) := by
  refine ⟨natToDec i ++ '\n' :: format_time seg.start ++ str " --> " ++
    format_time seg.«end» ++ ['\n'],
    str "\n\n" ++ srt_content (i + 1) u rest, ?_⟩
  simp [srt_content, srt_block, List.append_assoc]

theorem C9_translation_failure_marks_segments (svc : Ollama) (segments : List Segment)
    (target_lang source_lang : String) (e : List Char)
    (clipDur : List Char → Option ℚ) (fs : Fs) (dir : List Char)
    (hfail : ∀ prompt, svc.chat prompt = Except.error e)
    (hmark : containsSub dubbingMarker (errTag ++ e) = false) :
    (∀ seg ∈ translate_segments svc segments target_lang source_lang,
        seg.translated_text = errTag ++ e ∧ seg.translated_text ≠ [] ∧
        errTag <+: seg.translated_text) ∧
    (∀ c ∈ (synthesize_all_audio clipDur fs
        (translate_segments svc segments target_lang source_lang) dir).calls,
        c.2 = errTag ++ e) ∧
    (segments ≠ [] →
      (errTag ++ e) <:+:
        generate_srt (translate_segments svc segments target_lang source_lang) true) := by
  have hts := translate_segments_service_down svc segments target_lang source_lang e hfail hmark
  have hmem : ∀ seg ∈ translate_segments svc segments target_lang source_lang,
      seg.translated_text = errTag ++ e := by
    rw [hts]
    intro seg hseg
    obtain ⟨s0, hs0, rfl⟩ := List.mem_map.mp hseg
    rfl
  have hnil : errTag ++ e ≠ [] := by
    intro h
    exact absurd (List.append_eq_nil.mp h).1 (by decide)
  refine ⟨fun seg hseg => ⟨hmem seg hseg, ?_, ?_⟩, ?_, ?_⟩
  · rw [hmem seg hseg]; exact hnil
  · rw [hmem seg hseg]; exact List.prefix_append _ _
  · intro c hc
    simp only [synthesize_all_audio] at hc
    obtain ⟨q, hq, rfl⟩ := List.mem_map.mp hc
    exact hmem q.2 (List.getElem?_mem (List.mem_enum_iff_getElem?.mp hq))
  · intro hne
    cases segments with
    | nil => exact absurd rfl hne
    | cons seg0 rest =>
        rw [hts]
        have h := srt_text_infix 1 ({ seg0 with translated_text := errTag ++ e })
          (rest.map (fun seg => { seg with translated_text := errTag ++ e })) true
        simpa [generate_srt, srt_text] using h

theorem C9_translation_failure_marks_segments_witness :
    (∀ seg ∈ translate_segments svcDown [segNoClip] "ja_JP" "en_US",
        seg.translated_text = errTag ++ str "connection refused" ∧
        seg.translated_text ≠ [] ∧ errTag <+: seg.translated_text) ∧
    (∀ c ∈ (synthesize_all_audio (fun _ => some 1) fsEmpty
        (translate_segments svcDown [segNoClip] "ja_JP" "en_US") (str "job")).calls,
        c.2 = errTag ++ str "connection refused") ∧
    (([segNoClip] : List Segment) ≠ [] →
      (errTag ++ str "connection refused") <:+:
        generate_srt (translate_segments svcDown [segNoClip] "ja_JP" "en_US") true) :=
  C9_translation_failure_marks_segments svcDown [segNoClip] "ja_JP" "en_US"
    (str "connection refused") (fun _ => some 1) fsEmpty (str "job")
    (fun _ => rfl) (by decide)


theorem process_language_results (env : BatchEnv) (jd : List Char) (sl : String)
    (ap : List Char) (st : BatchState) (lang : String) :
    ∃ dv, (process_language env jd sl ap 0 st lang).results
      = st.results ++ [(lang,
          { translated_srt := jd ++ '/' :: str lang ++ str "/translated.srt",
            dubbed_video := dv })] := by
  exact ⟨_, rfl⟩

theorem batch_results_spec (env : BatchEnv) (fs : Fs) (jd : List Char) (sl : String)
    (ap : List Char) (langs : List String) (segs : List Segment) :
    (process_video_batch env fs jd sl ap langs segs).results.map Prod.fst = langs ∧
    ∀ entry ∈ (process_video_batch env fs jd sl ap langs segs).results,
      entry.2.translated_srt = jd ++ '/' :: str entry.1 ++ str "/translated.srt" := by
  have main : ∀ (l : List String) (st : BatchState),
      (l.foldl (process_language env jd sl ap 0) st).results.map Prod.fst
          = st.results.map Prod.fst ++ l ∧
      ((∀ entry ∈ st.results,
          entry.2.translated_srt = jd ++ '/' :: str entry.1 ++ str "/translated.srt") →
        ∀ entry ∈ (l.foldl (process_language env jd sl ap 0) st).results,
          entry.2.translated_srt = jd ++ '/' :: str entry.1 ++ str "/translated.srt") := by
    intro l
    induction l with
    | nil => intro st; exact ⟨by simp, fun h => h⟩
    | cons a l ih =>
        intro st
        obtain ⟨dv, hdv⟩ := process_language_results env jd sl ap st a
        constructor
        · rw [List.foldl_cons, (ih _).1, hdv]
          simp
        · intro hst entry hentry
          rw [List.foldl_cons] at hentry
          refine (ih _).2 ?_ entry hentry
          intro en hen
          rw [hdv] at hen
          rcases List.mem_append.mp hen with h | h
          · exact hst en h
          · rw [List.mem_singleton.mp h]
  have h := main langs { heap := [segs], fs := fs, results := [] }
  exact ⟨by simpa [process_video_batch] using h.1,
    by simpa [process_video_batch] using h.2 (by intro en hen; cases hen)⟩

theorem C3_batch_processes_all_languages (env : BatchEnv) (fs : Fs) (job_dir : List Char)
    (source_lang : String) (audio_path : List Char) (target_langs : List String)
    (segments : List Segment) (A : String) (e : List Char)
    (hA : A ∈ target_langs)
    (hfailA : ∀ text, env.svc.chat (build_prompt text source_lang A) = Except.error e) :
    (process_video_batch env fs job_dir source_lang audio_path target_langs
        segments).results.map Prod.fst = target_langs ∧
    (process_video_batch env fs job_dir source_lang audio_path target_langs
        segments).results.length = target_langs.length ∧
    ∀ entry ∈ (process_video_batch env fs job_dir source_lang audio_path target_langs
        segments).results,
      entry.2.translated_srt = job_dir ++ '/' :: str entry.1 ++ str "/translated.srt" := by
  obtain ⟨hkeys, hsrt⟩ :=
    batch_results_spec env fs job_dir source_lang audio_path target_langs segments
  refine ⟨hkeys, ?_, hsrt⟩
  have hlen := congrArg List.length hkeys
  rwa [List.length_map] at hlen

theorem C3_batch_processes_all_languages_witness :
    (process_video_batch envDown fsEmpty (str "batch") "en_US" (str "audio.wav")
        ["ja_JP", "ko_KR"] segsPlain).results.map Prod.fst = ["ja_JP", "ko_KR"] ∧
    (process_video_batch envDown fsEmpty (str "batch") "en_US" (str "audio.wav")
        ["ja_JP", "ko_KR"] segsPlain).results.length = (["ja_JP", "ko_KR"] : List String).length ∧
    ∀ entry ∈ (process_video_batch envDown fsEmpty (str "batch") "en_US" (str "audio.wav")
        ["ja_JP", "ko_KR"] segsPlain).results,
      entry.2.translated_srt = str "batch" ++ '/' :: str entry.1 ++ str "/translated.srt" :=
  C3_batch_processes_all_languages envDown fsEmpty (str "batch") "en_US" (str "audio.wav")
    ["ja_JP", "ko_KR"] segsPlain "ja_JP" (str "connection refused")
    (by decide) (fun _ => rfl)

theorem set_append_length {α : Type} (l : List α) (x y : α) :
    (l ++ [x]).set l.length y = l ++ [y] := by
  induction l with
  | nil => rfl
  | cons a l ih => simp [List.set, ih]

theorem heapGet_concat_length (h : List (List Segment)) (v : List Segment) :
    heapGet (h ++ [v]) h.length = v := by
  unfold heapGet
  rw [List.get?_eq_getElem?, List.getElem?_concat_length]
  rfl

theorem heapGet_append_left (h : List (List Segment)) (h2 : List (List Segment)) (r : ℕ)
    (hr : r < h.length) : heapGet (h ++ h2) r = heapGet h r := by
  unfold heapGet
  rw [List.get?_eq_getElem?, List.get?_eq_getElem?, List.getElem?_append, if_pos hr]

theorem process_language_heap (env : BatchEnv) (jd : List Char) (sl : String)
    (ap : List Char) (st : BatchState) (lang : String) :
    (process_language env jd sl ap 0 st lang).heap
      = st.heap ++ [perLangSegs env jd sl lang (heapGet st.heap 0)] := by
  simp only [process_language]
  rw [heapGet_concat_length, set_append_length, set_append_length]
  rfl

theorem batch_heap_spec (env : BatchEnv) (fs : Fs) (jd : List Char) (sl : String)
    (ap : List Char) (langs : List String) (segs : List Segment) :
    (process_video_batch env fs jd sl ap langs segs).heap
      = segs :: langs.map (fun lang => perLangSegs env jd sl lang segs) := by
  have main : ∀ (l : List String) (st : BatchState), heapGet st.heap 0 = segs →
      st.heap ≠ [] →
      (l.foldl (process_language env jd sl ap 0) st).heap
        = st.heap ++ l.map (fun lang => perLangSegs env jd sl lang segs) := by
    intro l
    induction l with
    | nil => intro st _ _; simp
    | cons a l ih =>
        intro st hget hne
        rw [List.foldl_cons]
        have hstep := process_language_heap env jd sl ap st a
        have hlen : 0 < st.heap.length := List.length_pos.mpr hne
        have hget' : heapGet (process_language env jd sl ap 0 st a).heap 0 = segs := by
          rw [hstep, heapGet_append_left _ _ 0 hlen, hget]
        have hne' : (process_language env jd sl ap 0 st a).heap ≠ [] := by
          rw [hstep]
          simp
        rw [ih _ hget' hne', hstep, hget]
        simp
  have h := main langs { heap := [segs], fs := fs, results := [] } rfl (by simp)
  simpa [process_video_batch] using h

theorem C4_deep_copy_isolation (env : BatchEnv) (fs : Fs) (job_dir : List Char)
    (source_lang : String) (audio_path : List Char) (A B : String)
    (segments : List Segment) (hAB : A ≠ B)
    (hinit : ∀ seg ∈ segments, seg.translated_text = []) :
    heapGet (process_video_batch env fs job_dir source_lang audio_path [A, B]
        segments).heap 0 = segments ∧
    (∀ seg ∈ heapGet (process_video_batch env fs job_dir source_lang audio_path [A, B]
        segments).heap 0, seg.translated_text = []) ∧
    heapGet (process_video_batch env fs job_dir source_lang audio_path [A, B]
        segments).heap 1 = perLangSegs env job_dir source_lang A segments ∧
    heapGet (process_video_batch env fs job_dir source_lang audio_path [A, B]
        segments).heap 2 = perLangSegs env job_dir source_lang B segments := by
  rw [batch_heap_spec]
  refine ⟨rfl, ?_, rfl, rfl⟩
  intro seg hseg
  exact hinit seg hseg

theorem C4_deep_copy_isolation_witness :
    heapGet (process_video_batch envOk fsEmpty (str "batch") "en_US" (str "audio.wav")
        ["ja_JP", "ko_KR"] segsPlain).heap 0 = segsPlain ∧
    (∀ seg ∈ heapGet (process_video_batch envOk fsEmpty (str "batch") "en_US" (str "audio.wav")
        ["ja_JP", "ko_KR"] segsPlain).heap 0, seg.translated_text = []) ∧
    heapGet (process_video_batch envOk fsEmpty (str "batch") "en_US" (str "audio.wav")
        ["ja_JP", "ko_KR"] segsPlain).heap 1
      = perLangSegs envOk (str "batch") "en_US" "ja_JP" segsPlain ∧
    heapGet (process_video_batch envOk fsEmpty (str "batch") "en_US" (str "audio.wav")
        ["ja_JP", "ko_KR"] segsPlain).heap 2
      = perLangSegs envOk (str "batch") "en_US" "ko_KR" segsPlain :=
  C4_deep_copy_isolation envOk fsEmpty (str "batch") "en_US" (str "audio.wav")
    "ja_JP" "ko_KR" segsPlain (by decide) (by decide)


theorem splitSep_no_sep (sep : Char) (l : List Char) (h : sep ∉ l) :
    splitSep sep l = [l] := by
  induction l with
  | nil => rfl
  | cons c cs ih =>
      rw [splitSep, if_neg (fun (hc : c = sep) => h (hc ▸ List.mem_cons_self c cs)),
        ih (fun hm => h (List.mem_cons_of_mem c hm))]

theorem splitSep_append (sep : Char) (a rest : List Char) (h : sep ∉ a) :
    splitSep sep (a ++ sep :: rest) = a :: splitSep sep rest := by
  induction a with
  | nil =>
      rw [List.nil_append, splitSep, if_pos rfl]
  | cons c cs ih =>
      rw [List.cons_append, splitSep,
        if_neg (fun (hc : c = sep) => h (hc ▸ List.mem_cons_self c cs)),
        ih (fun hm => h (List.mem_cons_of_mem c hm))]

theorem charVal_digitChar (d : ℕ) (hd : d < 10) : charVal (digitChar d) = d := by
  interval_cases d <;> decide

theorem digitChar_isDigit (d : ℕ) (hd : d < 10) : (digitChar d).isDigit = true := by
  interval_cases d <;> decide

theorem natToDecAux_digits (fuel : ℕ) : ∀ (n : ℕ), ∀ c ∈ natToDecAux fuel n, c.isDigit = true := by
  induction fuel with
  | zero => intro n c hc; cases hc
  | succ fuel ih =>
      intro n c hc
      rw [natToDecAux] at hc
      split_ifs at hc with h10
      · rw [List.mem_singleton.mp hc]
        exact digitChar_isDigit n h10
      · rcases List.mem_append.mp hc with h1 | h1
        · exact ih (n / 10) c h1
        · rw [List.mem_singleton.mp h1]
          exact digitChar_isDigit _ (Nat.mod_lt n (by norm_num))

theorem natToDec_digits (n : ℕ) : ∀ c ∈ natToDec n, c.isDigit = true :=
  natToDecAux_digits (n + 1) n

theorem pad_natToDec_digits (k n : ℕ) : ∀ c ∈ pad k (natToDec n), c.isDigit = true := by
  intro c hc
  rcases List.mem_append.mp hc with h | h
  · rw [List.eq_of_mem_replicate h]; decide
  · exact natToDec_digits n c h

theorem decToNat_append_digit (l : List Char) (c : Char) :
    decToNat (l ++ [c]) = 10 * decToNat l + charVal c := by
  unfold decToNat
  rw [List.foldl_append]
  rfl

theorem decToNat_natToDecAux (fuel : ℕ) : ∀ (n : ℕ), n < fuel →
    decToNat (natToDecAux fuel n) = n := by
  induction fuel with
  | zero => intro n h; omega
  | succ fuel ih =>
      intro n h
      rw [natToDecAux]
      split_ifs with h10
      · show decToNat [digitChar n] = n
        unfold decToNat
        show 10 * 0 + charVal (digitChar n) = n
        rw [charVal_digitChar n h10]
        omega
      · rw [decToNat_append_digit,
          ih (n / 10) (Nat.lt_of_lt_of_le (Nat.div_lt_self (by omega) (by norm_num))
            (Nat.lt_succ_iff.mp h)),
          charVal_digitChar _ (Nat.mod_lt n (by norm_num))]
        omega

theorem decToNat_natToDec (n : ℕ) : decToNat (natToDec n) = n :=
  decToNat_natToDecAux (n + 1) n (Nat.lt_succ_self n)

theorem foldl_decToNat_replicate (m : ℕ) :
    List.foldl (fun a c => 10 * a + charVal c) 0 (List.replicate m '0') = 0 := by
  induction m with
  | zero => rfl
  | succ m ih =>
      rw [List.replicate_succ, List.foldl_cons]
      show List.foldl (fun a c => 10 * a + charVal c) 0 (List.replicate m '0') = 0
      exact ih

theorem decToNat_pad (k : ℕ) (l : List Char) : decToNat (pad k l) = decToNat l := by
  unfold pad decToNat
  rw [List.foldl_append, foldl_decToNat_replicate]

theorem pyMod_nonneg (a b : ℚ) (hb : 0 < b) : 0 ≤ pyMod a b := by
  have h1 : pyMod a b = b * (a / b - ⌊a / b⌋) := by
    unfold pyMod
    rw [mul_sub, mul_div_cancel₀ a hb.ne']
  rw [h1]
  have h2 : (0 : ℚ) ≤ a / b - ⌊a / b⌋ := by
    have := Int.floor_le (a / b)
    linarith
  exact mul_nonneg hb.le h2

theorem format_time_hours_nonneg (s : ℚ) (hs : 0 ≤ s) : (0 : ℤ) ≤ ⌊s / 3600⌋ :=
  Int.floor_nonneg.mpr (by positivity)

theorem format_time_minutes_nonneg (s : ℚ) : (0 : ℤ) ≤ ⌊pyMod s 3600 / 60⌋ :=
  Int.floor_nonneg.mpr (by
    have := pyMod_nonneg s 3600 (by norm_num)
    positivity)

theorem format_time_secs_nonneg (s : ℚ) : (0 : ℤ) ≤ ⌊pyMod s 60⌋ :=
  Int.floor_nonneg.mpr (pyMod_nonneg s 60 (by norm_num))

theorem format_time_millis_nonneg (s : ℚ) : (0 : ℤ) ≤ ⌊pyMod s 1 * 1000⌋ :=
  Int.floor_nonneg.mpr (by
    have := pyMod_nonneg s 1 (by norm_num)
    positivity)

theorem intToDec_nonneg (n : ℤ) (h : 0 ≤ n) : intToDec n = natToDec n.toNat := by
  unfold intToDec
  rw [if_neg (not_lt.mpr h)]

theorem format_time_eq (s : ℚ) (hs : 0 ≤ s) :
    format_time s
      = pad 2 (natToDec (⌊s / 3600⌋).toNat) ++ ':' ::
          (pad 2 (natToDec (⌊pyMod s 3600 / 60⌋).toNat) ++ ':' ::
            (pad 2 (natToDec (⌊pyMod s 60⌋).toNat) ++ ',' ::
              pad 3 (natToDec (⌊pyMod s 1 * 1000⌋).toNat))) := by
  simp only [format_time,
    intToDec_nonneg _ (format_time_hours_nonneg s hs),
    intToDec_nonneg _ (format_time_minutes_nonneg s),
    intToDec_nonneg _ (format_time_secs_nonneg s),
    intToDec_nonneg _ (format_time_millis_nonneg s),
    List.append_assoc, List.cons_append]

theorem format_time_chars (s : ℚ) (hs : 0 ≤ s) :
    ∀ c ∈ format_time s, c.isDigit = true ∨ c = ':' ∨ c = ',' := by
  rw [format_time_eq s hs]
  intro c hc
  rcases List.mem_append.mp hc with h | h
  · exact Or.inl (pad_natToDec_digits _ _ c h)
  · rcases List.mem_cons.mp h with rfl | h
    · exact Or.inr (Or.inl rfl)
    · rcases List.mem_append.mp h with h | h
      · exact Or.inl (pad_natToDec_digits _ _ c h)
      · rcases List.mem_cons.mp h with rfl | h
        · exact Or.inr (Or.inl rfl)
        · rcases List.mem_append.mp h with h | h
          · exact Or.inl (pad_natToDec_digits _ _ c h)
          · rcases List.mem_cons.mp h with rfl | h
            · exact Or.inr (Or.inr rfl)
            · exact Or.inl (pad_natToDec_digits _ _ c h)

theorem newline_not_mem_format_time (s : ℚ) (hs : 0 ≤ s) : '\n' ∉ format_time s := by
  intro h
  rcases format_time_chars s hs '\n' h with h1 | h1 | h1 <;> cases h1

theorem space_not_mem_format_time (s : ℚ) (hs : 0 ≤ s) : ' ' ∉ format_time s := by
  intro h
  rcases format_time_chars s hs ' ' h with h1 | h1 | h1 <;> cases h1

theorem colon_not_mem_pad (k n : ℕ) : ':' ∉ pad k (natToDec n) := by
  intro h
  have := pad_natToDec_digits k n ':' h
  cases this

theorem comma_not_mem_pad (k n : ℕ) : ',' ∉ pad k (natToDec n) := by
  intro h
  have := pad_natToDec_digits k n ',' h
  cases this

theorem clock_value (s : ℚ) (hs : 0 ≤ s) :
    ((⌊s / 3600⌋.toNat : ℚ) * 3600 + (⌊pyMod s 3600 / 60⌋.toNat : ℚ) * 60
        + (⌊pyMod s 60⌋.toNat : ℚ) + (⌊pyMod s 1 * 1000⌋.toNat : ℚ) / 1000)
      = msTrunc s := by
  have c1 : ((⌊s / 3600⌋.toNat : ℚ)) = ((⌊s / 3600⌋ : ℤ) : ℚ) := by
    exact_mod_cast congrArg (fun z : ℤ => (z : ℚ))
      (Int.toNat_of_nonneg (format_time_hours_nonneg s hs))
  have c2 : ((⌊pyMod s 3600 / 60⌋.toNat : ℚ)) = ((⌊pyMod s 3600 / 60⌋ : ℤ) : ℚ) := by
    exact_mod_cast congrArg (fun z : ℤ => (z : ℚ))
      (Int.toNat_of_nonneg (format_time_minutes_nonneg s))
  have c3 : ((⌊pyMod s 60⌋.toNat : ℚ)) = ((⌊pyMod s 60⌋ : ℤ) : ℚ) := by
    exact_mod_cast congrArg (fun z : ℤ => (z : ℚ))
      (Int.toNat_of_nonneg (format_time_secs_nonneg s))
  have c4 : ((⌊pyMod s 1 * 1000⌋.toNat : ℚ)) = ((⌊pyMod s 1 * 1000⌋ : ℤ) : ℚ) := by
    exact_mod_cast congrArg (fun z : ℤ => (z : ℚ))
      (Int.toNat_of_nonneg (format_time_millis_nonneg s))
  rw [c1, c2, c3, c4]
  have hm : ⌊pyMod s 3600 / 60⌋ = ⌊s / 60⌋ - 60 * ⌊s / 3600⌋ := by
    have h : pyMod s 3600 / 60 = s / 60 - ((60 * ⌊s / 3600⌋ : ℤ) : ℚ) := by
      unfold pyMod
      push_cast
      ring
    rw [h, Int.floor_sub_int]
  have hsec : ⌊pyMod s 60⌋ = ⌊s⌋ - 60 * ⌊s / 60⌋ := by
    have h : pyMod s 60 = s - ((60 * ⌊s / 60⌋ : ℤ) : ℚ) := by
      unfold pyMod
      push_cast
      ring
    rw [h, Int.floor_sub_int]
  have hms : ⌊pyMod s 1 * 1000⌋ = ⌊1000 * s⌋ - 1000 * ⌊s⌋ := by
    have h : pyMod s 1 * 1000 = 1000 * s - ((1000 * ⌊s⌋ : ℤ) : ℚ) := by
      unfold pyMod
      rw [div_one]
      push_cast
      ring
    rw [h, Int.floor_sub_int]
  rw [hm, hsec, hms, msTrunc]
  push_cast
  ring

theorem parseClock_format_time (s : ℚ) (hs : 0 ≤ s) :
    parseClock (format_time s) = some (msTrunc s) := by
  rw [format_time_eq s hs]
  unfold parseClock
  rw [splitSep_append ':' _ _ (colon_not_mem_pad 2 _),
    splitSep_append ':' _ _ (colon_not_mem_pad 2 _),
    splitSep_no_sep ':' _ (by
      intro h
      rcases List.mem_append.mp h with h | h
      · exact colon_not_mem_pad 2 _ h
      · rcases List.mem_cons.mp h with h | h
        · cases h
        · exact colon_not_mem_pad 3 _ h)]
  show (match splitSep ',' (pad 2 (natToDec (⌊pyMod s 60⌋).toNat) ++ ',' ::
      pad 3 (natToDec (⌊pyMod s 1 * 1000⌋).toNat)) with
    | [s', ms] => some ((decToNat (pad 2 (natToDec (⌊s / 3600⌋).toNat)) : ℚ) * 3600 +
        (decToNat (pad 2 (natToDec (⌊pyMod s 3600 / 60⌋).toNat)) : ℚ) * 60 +
        (decToNat s' : ℚ) + (decToNat ms : ℚ) / 1000)
    | _ => none) = some (msTrunc s)
  rw [splitSep_append ',' _ _ (comma_not_mem_pad 2 _),
    splitSep_no_sep ',' _ (comma_not_mem_pad 3 _)]
  show some ((decToNat (pad 2 (natToDec (⌊s / 3600⌋).toNat)) : ℚ) * 3600 +
      (decToNat (pad 2 (natToDec (⌊pyMod s 3600 / 60⌋).toNat)) : ℚ) * 60 +
      (decToNat (pad 2 (natToDec (⌊pyMod s 60⌋).toNat)) : ℚ) +
      (decToNat (pad 3 (natToDec (⌊pyMod s 1 * 1000⌋).toNat)) : ℚ) / 1000) = some (msTrunc s)
  rw [decToNat_pad, decToNat_pad, decToNat_pad, decToNat_pad,
    decToNat_natToDec, decToNat_natToDec, decToNat_natToDec, decToNat_natToDec]
  rw [clock_value s hs]

theorem parseTimeLine_format (s e : ℚ) (hs : 0 ≤ s) (he : 0 ≤ e) :
    parseTimeLine (format_time s ++ (str " --> " ++ format_time e))
      = some (msTrunc s, msTrunc e) := by
  unfold parseTimeLine
  have hshape : format_time s ++ (str " --> " ++ format_time e)
      = format_time s ++ ' ' :: (['-', '-', '>'] ++ ' ' :: format_time e) := by
    simp [str]
  rw [hshape,
    splitSep_append ' ' _ _ (space_not_mem_format_time s hs),
    splitSep_append ' ' _ _ (by decide),
    splitSep_no_sep ' ' _ (space_not_mem_format_time e he)]
  show (if ['-', '-', '>'] = str "-->" then
      match parseClock (format_time s), parseClock (format_time e) with
      | some a, some b => some (a, b)
      | _, _ => none
    else none) = some (msTrunc s, msTrunc e)
  rw [if_pos (by decide), parseClock_format_time s hs, parseClock_format_time e he]

theorem splitSep_srt_content (u : Bool) (segs : List Segment)
    (h : ∀ seg ∈ segs, 0 ≤ seg.start ∧ 0 ≤ seg.«end» ∧ '\n' ∉ srt_text u seg) :
    ∀ i : ℕ, splitSep '\n' (srt_content i u segs) = srt_lines i u segs ++ [[]] := by
  induction segs with
  | nil => intro i; rfl
  | cons seg rest ih =>
      intro i
      obtain ⟨hs, he, ht⟩ := h seg (List.mem_cons_self seg rest)
      have hrest := fun s hs => h s (List.mem_cons_of_mem seg hs)
      have hshape : srt_content i u (seg :: rest)
          = natToDec i ++ '\n' ::
              ((format_time seg.start ++ (str " --> " ++ format_time seg.«end»)) ++ '\n' ::
                (srt_text u seg ++ '\n' :: '\n' :: srt_content (i + 1) u rest)) := by
        show srt_block i u seg ++ srt_content (i + 1) u rest = _
        simp [srt_block, str, List.append_assoc]
      rw [hshape,
        splitSep_append '\n' _ _ (by
          intro hmem
          have := natToDec_digits i '\n' hmem
          cases this),
        splitSep_append '\n' _ _ (by
          intro hmem
          rcases List.mem_append.mp hmem with h1 | h1
          · exact newline_not_mem_format_time seg.start hs h1
          · rcases List.mem_append.mp h1 with h2 | h2
            · revert h2; decide
            · exact newline_not_mem_format_time seg.«end» he h2),
        splitSep_append '\n' _ _ ht,
        splitSep, if_pos rfl, ih hrest (i + 1)]
      rfl

theorem natToDec_ne_nil (n : ℕ) : natToDec n ≠ [] := by
  unfold natToDec natToDecAux
  split_ifs <;> simp

theorem parseBlocksAux_srt_lines (u : Bool) (segs : List Segment)
    (h : ∀ seg ∈ segs, 0 ≤ seg.start ∧ 0 ≤ seg.«end» ∧ srt_text u seg ≠ [] ∧
      '\n' ∉ srt_text u seg) :
    ∀ (i fuel : ℕ), segs.length < fuel →
      parseBlocksAux fuel (srt_lines i u segs ++ [[]]) = some (srt_expected i u segs) := by
  induction segs with
  | nil =>
      intro i fuel hfuel
      show parseBlocksAux fuel [[]] = some []
      cases fuel <;> rfl
  | cons seg rest ih =>
      intro i fuel hfuel
      obtain ⟨hs, he, hne, hnl⟩ := h seg (List.mem_cons_self seg rest)
      have hrest := fun s hs => h s (List.mem_cons_of_mem seg hs)
      obtain ⟨fuel, rfl⟩ : ∃ f, fuel = f + 1 := by
        cases fuel
        · omega
        · exact ⟨_, rfl⟩
      obtain ⟨c, l, hcl⟩ := List.exists_cons_of_ne_nil hne
      show parseBlocksAux (fuel + 1)
          (natToDec i :: (format_time seg.start ++ (str " --> " ++ format_time seg.«end»)) ::
            (srt_text u seg :: [] :: (srt_lines (i + 1) u rest ++ [[]]))) = _
      rw [parseBlocksAux, parseTimeLine_format seg.start seg.«end» hs he]
      have htake : takeTextLines (srt_text u seg :: [] :: (srt_lines (i + 1) u rest ++ [[]]))
          = ([srt_text u seg], srt_lines (i + 1) u rest ++ [[]]) := by
        rw [hcl]
        rw [takeTextLines]
        rfl
      rw [htake]
      show (match parseBlocksAux fuel (srt_lines (i + 1) u rest ++ [[]]) with
        | none => none
        | some bs =>
            some ((decToNat (natToDec i), msTrunc seg.start, msTrunc seg.«end»,
              joinLines [srt_text u seg]) :: bs))
        = some (srt_expected i u (seg :: rest))
      rw [ih hrest (i + 1) fuel (by simpa using Nat.lt_succ_iff.mp hfuel)]
      show some ((decToNat (natToDec i), msTrunc seg.start, msTrunc seg.«end»,
          joinLines [srt_text u seg]) :: srt_expected (i + 1) u rest)
        = some (srt_expected i u (seg :: rest))
      rw [decToNat_natToDec]
      rfl

theorem srt_content_length (u : Bool) (segs : List Segment) :
    ∀ i : ℕ, segs.length ≤ (srt_content i u segs).length := by
  induction segs with
  | nil => intro i; simp
  | cons seg rest ih =>
      intro i
      show (seg :: rest).length ≤ (srt_block i u seg ++ srt_content (i + 1) u rest).length
      rw [List.length_append]
      have h1 : 1 ≤ (srt_block i u seg).length := by
        simp [srt_block]
        omega
      have h2 := ih (i + 1)
      simp only [List.length_cons]
      omega

theorem srt_expected_indices (u : Bool) (segs : List Segment) :
    ∀ i : ℕ, (srt_expected i u segs).map (fun b => b.1) = List.range' i segs.length := by
  induction segs with
  | nil => intro i; rfl
  | cons seg rest ih =>
      intro i
      show (i, msTrunc seg.start, msTrunc seg.«end», srt_text u seg).1 ::
        (srt_expected (i + 1) u rest).map (fun b => b.1) = List.range' i (rest.length + 1)
      rw [ih (i + 1), List.range'_succ]

theorem msTrunc_close (q : ℚ) : |msTrunc q - q| < 1/1000 := by
  unfold msTrunc
  have h1 := Int.floor_le (1000 * q)
  have h2 := Int.lt_floor_add_one (1000 * q)
  rw [abs_sub_lt_iff]
  constructor <;> push_cast at h1 h2 ⊢ <;> linarith

theorem C8_srt_round_trip (segs : List Segment) (u : Bool)
    (h : ∀ seg ∈ segs, 0 ≤ seg.start ∧ 0 ≤ seg.«end» ∧ srt_text u seg ≠ [] ∧
      '\n' ∉ srt_text u seg) :
    parse_srt (generate_srt segs u) = some (srt_expected 1 u segs) ∧
    (srt_expected 1 u segs).map (fun b => b.1) = List.range' 1 segs.length ∧
    ∀ seg ∈ segs, |msTrunc seg.start - seg.start| < 1/1000 ∧
      |msTrunc seg.«end» - seg.«end»| < 1/1000 := by
  refine ⟨?_, srt_expected_indices u segs 1, fun seg _ => ⟨msTrunc_close _, msTrunc_close _⟩⟩
  unfold parse_srt generate_srt
  rw [splitSep_srt_content u segs
    (fun seg hseg => ⟨(h seg hseg).1, (h seg hseg).2.1, (h seg hseg).2.2.2⟩) 1]
  exact parseBlocksAux_srt_lines u segs h 1 _
    (Nat.lt_succ_of_le (srt_content_length u segs 1))

theorem C8_srt_round_trip_witness :
    parse_srt (generate_srt segsPlain false) = some (srt_expected 1 false segsPlain) ∧
    (srt_expected 1 false segsPlain).map (fun b => b.1)
      = List.range' 1 (segsPlain : List Segment).length ∧
    ∀ seg ∈ segsPlain, |msTrunc seg.start - seg.start| < 1/1000 ∧
      |msTrunc seg.«end» - seg.«end»| < 1/1000 :=
  C8_srt_round_trip segsPlain false (by
    intro seg hseg
    rcases List.mem_cons.mp hseg with rfl | hseg
    · exact ⟨by norm_num, by norm_num, by decide, by decide⟩
    · rcases List.mem_cons.mp hseg with rfl | hseg
      · exact ⟨by norm_num, by norm_num, by decide, by decide⟩
      · cases hseg)

theorem parseBlocksAux_bad_time (fuel : ℕ) (l1 l2 : List Char) (rest : List (List Char))
    (h : parseTimeLine l2 = none) : parseBlocksAux fuel (l1 :: l2 :: rest) = none := by
  cases fuel with
  | zero => cases l1 <;> rfl
  | succ f => rw [parseBlocksAux, h]

theorem C8_cex : parse_srt (generate_srt [segNewline] false) = none := by
  have hone : natToDec 1 = ['1'] := by decide
  have hfile : generate_srt [segNewline] false
      = ['1'] ++ '\n' :: ((format_time 0 ++ (str " --> " ++ format_time 1)) ++ '\n' ::
          (str "a\n\nb" ++ str "\n\n")) := by
    show srt_block 1 false segNewline ++ srt_content 2 false [] = _
    simp [srt_block, srt_content, srt_text, segNewline, hone, List.append_assoc]
  have htail : splitSep '\n' (str "a\n\nb" ++ str "\n\n")
      = [str "a", [], str "b", [], []] := by decide
  have hlines : splitSep '\n' (generate_srt [segNewline] false)
      = ['1'] :: (format_time 0 ++ (str " --> " ++ format_time 1)) ::
          str "a" :: [] :: str "b" :: [] :: [[]] := by
    rw [hfile,
      splitSep_append '\n' _ _ (by decide),
      splitSep_append '\n' _ _ (by
        intro hmem
        rcases List.mem_append.mp hmem with h1 | h1
        · exact newline_not_mem_format_time 0 (by norm_num) h1
        · rcases List.mem_append.mp h1 with h2 | h2
          · revert h2; decide
          · exact newline_not_mem_format_time 1 (by norm_num) h2),
      htail]
  unfold parse_srt
  rw [hlines, parseBlocksAux, parseTimeLine_format 0 1 (by norm_num) (by norm_num)]
  have htake : takeTextLines (str "a" :: [] :: str "b" :: [] :: [[]])
      = ([str "a"], str "b" :: [] :: [[]]) := by decide
  rw [htake]
  dsimp only
  rw [parseBlocksAux_bad_time _ (str "b") [] [[]] (by decide)]

theorem C6_cex :
    (synthesize_all_audio (fun _ => some 1) fsEmpty [segNoClip] (str "job")).calls
      = [(0, ([] : List Char))] ∧
    ([(0, ([] : List Char))] : List (ℕ × List Char)) ≠ [] := by
  exact ⟨rfl, by decide⟩

theorem C6_synthesize_every_segment (clipDur : List Char → Option ℚ) (fs : Fs)
    (segments : List Segment) (dir : List Char) (i : ℕ) (hi : i < segments.length) :
    (synthesize_all_audio clipDur fs segments dir).calls.length = segments.length ∧
    (synthesize_all_audio clipDur fs segments dir).calls.get? i
      = Option.map (fun seg => (i, seg.translated_text)) (segments.get? i) ∧
    (synthesize_all_audio clipDur fs segments dir).segments.get? i
      = Option.map (fun seg => { seg with audio_path := tts_path dir i }) (segments.get? i) := by
  refine ⟨by simp [synthesize_all_audio], ?_, ?_⟩ <;>
    · simp only [synthesize_all_audio, List.get?_map, List.get?_enum]
      cases segments.get? i <;> rfl

theorem C6_synthesize_every_segment_witness :
    (synthesize_all_audio (fun _ => some 1) fsEmpty [segNoClip] (str "job")).calls.length
        = ([segNoClip] : List Segment).length ∧
    (synthesize_all_audio (fun _ => some 1) fsEmpty [segNoClip] (str "job")).calls.get? 0
      = Option.map (fun seg => (0, seg.translated_text)) (([segNoClip] : List Segment).get? 0) ∧
    (synthesize_all_audio (fun _ => some 1) fsEmpty [segNoClip] (str "job")).segments.get? 0
      = Option.map (fun seg => { seg with audio_path := tts_path (str "job") 0 })
          (([segNoClip] : List Segment).get? 0) :=
  C6_synthesize_every_segment (fun _ => some 1) fsEmpty [segNoClip] (str "job") 0 (by decide)

end TransGemma
